import Mathlib

/-!
Verification of a small content-addressed version-control engine
(object codec, commit engine, history graph, merge engine, checkout,
cherry-pick, reset and index loading), shallowly embedded from the
Python source in src/git.py.

Modelling conventions, stated once here and referenced below:
byte strings are lists of naturals below 256; path-to-blob indices and
the object stores are association lists keyed by strings, mirroring
Python dicts and the on-disk directories.  The zlib layer (a mutually
inverse compress/decompress pair wrapped around the canonical object
bytes) and the SHA-1 digest are external library collaborators: the
codec is modelled on the canonical uncompressed bytes, and hashing is
parameterized by the digest function.  Tree objects are modelled by
their flattened path-to-blob mapping, which is exactly the view the
engine computes of them through build_index_from_tree,
get_files_from_tree_recursive and restore_tree.
-/

/-- Association-list lookup, first binding wins; models Python dict lookup
(dict keys are unique, so the first binding is the only one). -/
def alookup {α : Type} (k : String) : List (String × α) → Option α
  | [] => none
  | (k2, v) :: rest => if k2 = k then some v else alookup k rest

/-- The keys of an association list, models dict.keys(). -/
def keysOf {α : Type} (l : List (String × α)) : List String :=
  l.map (fun kv => kv.1)

/-- Remove every binding of a key; models del d[k] on a dict. -/
def removeKey {α : Type} (k : String) : List (String × α) → List (String × α)
  | [] => []
  | (k2, v) :: rest =>
      if k2 = k then removeKey k rest else (k2, v) :: removeKey k rest

/-- Overwriting update; models d[k] = v on a dict. -/
def aset {α : Type} (k : String) (v : α) (l : List (String × α)) :
    List (String × α) :=
  (k, v) :: removeKey k l

theorem alookup_aset_self {α : Type} (k : String) (v : α)
    (l : List (String × α)) : alookup k (aset k v l) = some v := by
  simp [aset, alookup]

theorem alookup_removeKey_ne {α : Type} (k k2 : String) (h : k2 ≠ k)
    (l : List (String × α)) : alookup k2 (removeKey k l) = alookup k2 l := by
  induction l with
  | nil => rfl
  | cons kv rest ih =>
      obtain ⟨k3, v3⟩ := kv
      by_cases h3 : k3 = k
      · subst h3
        have hne : ¬ k3 = k2 := fun hh => h hh.symm
        simp [removeKey, alookup, hne, ih]
      · by_cases h4 : k3 = k2 <;> simp [removeKey, alookup, h3, h4, h, ih]

theorem alookup_aset_ne {α : Type} (k k2 : String) (v : α) (h : k2 ≠ k)
    (l : List (String × α)) : alookup k2 (aset k v l) = alookup k2 l := by
  have hne : ¬ k = k2 := fun hh => h hh.symm
  simp [aset, alookup, hne, alookup_removeKey_ne k k2 h l]

/-- A key with a binding is among the keys. -/
theorem mem_keysOf_of_alookup {α : Type} {k : String} {l : List (String × α)}
    (h : alookup k l ≠ none) : k ∈ keysOf l := by
  induction l with
  | nil => simp [alookup] at h
  | cons kv rest ih =>
      obtain ⟨k2, v2⟩ := kv
      by_cases h2 : k2 = k
      · subst h2; simp [keysOf]
      · simp [alookup, h2] at h
        simpa [keysOf] using Or.inr (by simpa [keysOf] using ih h)

/-! ## Object codec (GitObject.hash / serialize / deserialize)

The canonical form of an object is the bytes of
"kind SP decimal-length NUL payload"; serialize zlib-compresses that
form and deserialize decompresses and re-parses it.  Compression is
elided per the conventions above, so the two functions below work on
the canonical bytes directly. -/

/-- Decimal ASCII digits of a natural number, fueled form. -/
def natDigitsAux : Nat → Nat → List Nat
  | 0, _ => []
  | fuel + 1, n =>
      if n < 10 then [48 + n]
      else natDigitsAux fuel (n / 10) ++ [48 + n % 10]

/-- Decimal ASCII digits of a natural number; models the f-string
formatting of len(content) in the source. -/
def natDigits (n : Nat) : List Nat := natDigitsAux (n + 1) n

/-- The header bytes "kind SP decimal-length" (everything before the NUL). -/
def headerBytes (kind : List Nat) (n : Nat) : List Nat :=
  kind ++ 32 :: natDigits n

/-- serialize of the source, on canonical (uncompressed) bytes:
header, NUL, payload. -/
def serializeCore (kind payload : List Nat) : List Nat :=
  headerBytes kind payload.length ++ 0 :: payload

/-- hash of the source: SHA-1 over the canonical header-plus-payload bytes.
The digest itself is an external collaborator, passed as a parameter; the
bytes fed to it are built exactly as in the source. -/
def hashWith (sha1 : List Nat → List Nat) (kind payload : List Nat) :
    List Nat :=
  sha1 (headerBytes kind payload.length ++ 0 :: payload)

/-- Index of the first NUL byte; models bytes.find of the source, with
none standing for the -1 return value. -/
def findNullIdx : List Nat → Option Nat
  | [] => none
  | b :: rest => if b = 0 then some 0 else (findNullIdx rest).map (· + 1)

/-- The header slice the source takes: bytes before the first NUL, or all
but the last byte when no NUL is present (the Python slice [:-1]). -/
def headerOf (d : List Nat) : List Nat :=
  match findNullIdx d with
  | some i => d.take i
  | none => d.take (d.length - 1)

/-- The payload slice the source takes: bytes after the first NUL, or the
whole input when no NUL is present (the Python slice [0:]). -/
def payloadOf (d : List Nat) : List Nat :=
  match findNullIdx d with
  | some i => d.drop (i + 1)
  | none => d

/-- State machine for strict UTF-8 validation.  The state none expects a
lead byte; the state some (lo, hi, n) expects one byte in the range
[lo, hi] followed by n plain continuation bytes.  The lead-byte ranges
are those of strict (CPython) UTF-8: overlong forms, surrogates and
values beyond U+10FFFF are rejected. -/
def utf8ValidSt : Option (Nat × Nat × Nat) → List Nat → Bool
  | none, [] => true
  | some _, [] => false
  | none, b :: rest =>
      if b ≤ 127 then utf8ValidSt none rest
      else if 194 ≤ b && b ≤ 223 then utf8ValidSt (some (128, 191, 0)) rest
      else if b = 224 then utf8ValidSt (some (160, 191, 1)) rest
      else if 225 ≤ b && b ≤ 236 then utf8ValidSt (some (128, 191, 1)) rest
      else if b = 237 then utf8ValidSt (some (128, 159, 1)) rest
      else if 238 ≤ b && b ≤ 239 then utf8ValidSt (some (128, 191, 1)) rest
      else if b = 240 then utf8ValidSt (some (144, 191, 2)) rest
      else if 241 ≤ b && b ≤ 243 then utf8ValidSt (some (128, 191, 2)) rest
      else if b = 244 then utf8ValidSt (some (128, 143, 2)) rest
      else false
  | some (lo, hi, n), c :: rest =>
      if lo ≤ c && c ≤ hi then
        match n with
        | 0 => utf8ValidSt none rest
        | m + 1 => utf8ValidSt (some (128, 191, m)) rest
      else false

/-- Strict UTF-8 validity of a byte string, as checked by Python
bytes.decode.  The header must decode for deserialize to succeed. -/
def utf8Valid (l : List Nat) : Bool := utf8ValidSt none l

/-- Split a byte string at every occurrence of a byte, keeping empty
pieces; models str.split of the source applied to the decoded header
(a space byte in valid UTF-8 is exactly a space character). -/
def splitOnByte (b : Nat) : List Nat → List (List Nat)
  | [] => [[]]
  | x :: xs =>
      if x = b then [] :: splitOnByte b xs
      else
        match splitOnByte b xs with
        | h :: t => (x :: h) :: t
        | [] => [[x]]

/-- deserialize of the source on canonical (decompressed) bytes: slice at
the first NUL, decode the header, and unpack "kind SP size" into exactly
two fields, returning the kind and the payload.  The declared size field
is bound to an unused variable in the source and never compared. -/
def deserializeCore (d : List Nat) : Option (List Nat × List Nat) :=
  if utf8Valid (headerOf d) then
    match splitOnByte 32 (headerOf d) with
    | [t, _sz] => some (t, payloadOf d)
    | _ => none
  else none

/-- The four object kinds as ASCII bytes: blob. -/
def blobKind : List Nat := [98, 108, 111, 98]

/-- The tree kind as ASCII bytes. -/
def treeKind : List Nat := [116, 114, 101, 101]

/-- The commit kind as ASCII bytes. -/
def commitKind : List Nat := [99, 111, 109, 109, 105, 116]

/-- The tag kind as ASCII bytes. -/
def tagKind : List Nat := [116, 97, 103]

/-- Occurrences of a byte in a byte string. -/
def countByte (b : Nat) : List Nat → Nat
  | [] => 0
  | x :: xs => (if x = b then 1 else 0) + countByte b xs

theorem natDigitsAux_mem_bounds :
    ∀ fuel n, n < fuel → ∀ d ∈ natDigitsAux fuel n, 48 ≤ d ∧ d ≤ 57 := by
  intro fuel
  induction fuel with
  | zero => intro n h; exact absurd h (Nat.not_lt_zero n)
  | succ fuel ih =>
      intro n hn d hd
      by_cases h10 : n < 10
      · simp [natDigitsAux, h10] at hd
        omega
      · simp [natDigitsAux, h10] at hd
        rcases hd with hd | hd
        · have hdiv : n / 10 < n := Nat.div_lt_self (by omega) (by omega)
          exact ih (n / 10) (by omega) d hd
        · have hmod : n % 10 < 10 := Nat.mod_lt n (by omega)
          omega

theorem natDigits_bounds (n d : Nat) (hd : d ∈ natDigits n) :
    48 ≤ d ∧ d ≤ 57 :=
  natDigitsAux_mem_bounds (n + 1) n (Nat.lt_succ_self n) d hd

theorem findNullIdx_append (xs rest : List Nat) (h : ∀ b ∈ xs, b ≠ 0) :
    findNullIdx (xs ++ 0 :: rest) = some xs.length := by
  induction xs with
  | nil => simp [findNullIdx]
  | cons x xs ih =>
      have hx : x ≠ 0 := h x (by simp)
      simp [findNullIdx, hx, ih (fun b hb => h b (by simp [hb]))]

theorem take_len_append (xs ys : List Nat) : (xs ++ ys).take xs.length = xs := by
  induction xs with
  | nil => simp
  | cons x xs ih => simp [ih]

theorem drop_len_succ_append (xs : List Nat) (y : Nat) (ys : List Nat) :
    (xs ++ y :: ys).drop (xs.length + 1) = ys := by
  induction xs with
  | nil => simp
  | cons x xs ih => simp [ih]

theorem utf8Valid_of_ascii :
    ∀ l : List Nat, (∀ b ∈ l, b ≤ 127) → utf8Valid l = true := by
  intro l
  induction l with
  | nil => intro _; rfl
  | cons b rest ih =>
      intro h
      have hb : b ≤ 127 := h b (by simp)
      have ht := ih (fun x hx => h x (by simp [hx]))
      simp only [utf8Valid] at ht ⊢
      simp [utf8ValidSt, hb, ht]

theorem splitOnByte_of_not_mem (b : Nat) (l : List Nat)
    (h : ∀ x ∈ l, x ≠ b) : splitOnByte b l = [l] := by
  induction l with
  | nil => rfl
  | cons x xs ih =>
      have hx : x ≠ b := h x (by simp)
      simp [splitOnByte, hx, ih (fun y hy => h y (by simp [hy]))]

theorem splitOnByte_append (b : Nat) (xs rest : List Nat)
    (h : ∀ x ∈ xs, x ≠ b) :
    splitOnByte b (xs ++ b :: rest) = xs :: splitOnByte b rest := by
  induction xs with
  | nil => simp [splitOnByte]
  | cons x xs ih =>
      have hx : x ≠ b := h x (by simp)
      simp [splitOnByte, hx, ih (fun y hy => h y (by simp [hy]))]

theorem splitOnByte_length (b : Nat) :
    ∀ l : List Nat, (splitOnByte b l).length = countByte b l + 1 := by
  intro l
  induction l with
  | nil => rfl
  | cons x xs ih =>
      by_cases hx : x = b
      · simp [splitOnByte, countByte, hx, ih]
        omega
      · rcases hs : splitOnByte b xs with _ | ⟨h1, t1⟩
        · rw [hs] at ih; simp at ih
        · rw [hs] at ih
          simp at ih
          simp [splitOnByte, countByte, hx, hs]
          omega

theorem deserialize_serialize_of (k : List Nat)
    (hk0 : ∀ b ∈ k, b ≠ 0) (hk32 : ∀ b ∈ k, b ≠ 32)
    (hk127 : ∀ b ∈ k, b ≤ 127) (p : List Nat) :
    deserializeCore (serializeCore k p) = some (k, p) := by
  have hd48 : ∀ b ∈ natDigits p.length, 48 ≤ b ∧ b ≤ 57 :=
    fun b hb => natDigits_bounds p.length b hb
  have hh0 : ∀ b ∈ headerBytes k p.length, b ≠ 0 := by
    intro b hb
    simp [headerBytes] at hb
    rcases hb with hb | hb | hb
    · exact hk0 b hb
    · omega
    · have := hd48 b hb; omega
  have hfind : findNullIdx (headerBytes k p.length ++ 0 :: p) =
      some (headerBytes k p.length).length :=
    findNullIdx_append (headerBytes k p.length) p hh0
  have hheader : headerOf (serializeCore k p) = headerBytes k p.length := by
    simp [headerOf, hfind, serializeCore, take_len_append]
  have hpayload : payloadOf (serializeCore k p) = p := by
    simp [payloadOf, hfind, serializeCore, drop_len_succ_append]
  have hvalid : utf8Valid (headerBytes k p.length) = true := by
    apply utf8Valid_of_ascii
    intro b hb
    simp [headerBytes] at hb
    rcases hb with hb | hb | hb
    · exact hk127 b hb
    · omega
    · have := hd48 b hb; omega
  have hsplit : splitOnByte 32 (headerBytes k p.length) =
      [k, natDigits p.length] := by
    have h1 := splitOnByte_append 32 k (natDigits p.length) hk32
    have h2 := splitOnByte_of_not_mem 32 (natDigits p.length)
      (fun y hy => by have := hd48 y hy; omega)
    simp [headerBytes, h1, h2]
  simp [deserializeCore, hheader, hpayload, hvalid, hsplit]

/-- C7: for each of the four object kinds and any payload bytes,
deserializing the serialized canonical form returns exactly the kind and
the payload back; and the object hash is a deterministic function of the
kind and the payload alone (it is the fixed digest of bytes built only
from them, so equal inputs always give the same id). -/
theorem codec_round_trip_and_hash_det :
    (∀ p, deserializeCore (serializeCore blobKind p) = some (blobKind, p)) ∧
    (∀ p, deserializeCore (serializeCore treeKind p) = some (treeKind, p)) ∧
    (∀ p, deserializeCore (serializeCore commitKind p) = some (commitKind, p)) ∧
    (∀ p, deserializeCore (serializeCore tagKind p) = some (tagKind, p)) ∧
    (∀ sha1 k p k2 p2, k = k2 → p = p2 →
        hashWith sha1 k p = hashWith sha1 k2 p2) := by
  refine ⟨?_, ?_, ?_, ?_, ?_⟩
  · exact deserialize_serialize_of blobKind (by decide) (by decide) (by decide)
  · exact deserialize_serialize_of treeKind (by decide) (by decide) (by decide)
  · exact deserialize_serialize_of commitKind (by decide) (by decide) (by decide)
  · exact deserialize_serialize_of tagKind (by decide) (by decide) (by decide)
  · intro sha1 k p k2 p2 hk hp
    rw [hk, hp]

/-- Witness for the C7 theorem at a concrete payload, with the digest
instantiated by the identity function. -/
theorem codec_round_trip_and_hash_det_witness :
    deserializeCore (serializeCore blobKind [104, 105]) =
        some (blobKind, [104, 105]) ∧
    hashWith (fun l => l) blobKind [104, 105] =
        hashWith (fun l => l) blobKind [104, 105] :=
  ⟨codec_round_trip_and_hash_det.1 [104, 105],
   codec_round_trip_and_hash_det.2.2.2.2 (fun l => l) blobKind [104, 105]
     blobKind [104, 105] rfl rfl⟩

/-- C5 counterexample: deserialize does not fail on a declared size that
disagrees with the payload length, and does not fail when the header
separator (NUL) is absent.  The first input is the canonical bytes of
"blob 999" NUL "hi": the declared size 999 is inconsistent with the
2-byte payload (whose true decimal encoding is [50], not [57,57,57]),
yet deserialization succeeds.  The second input "a SP b" has no NUL at
all, yet deserialization succeeds, returning kind "a" and the whole
input as payload. -/
theorem deserialize_ignores_declared_size :
    deserializeCore [98, 108, 111, 98, 32, 57, 57, 57, 0, 104, 105] =
        some (blobKind, [104, 105]) ∧
    natDigits ([104, 105] : List Nat).length = [50] ∧
    ([50] : List Nat) ≠ [57, 57, 57] ∧
    deserializeCore [97, 32, 98] = some ([97], [97, 32, 98]) := by
  refine ⟨?_, ?_, ?_, ?_⟩ <;> decide

/-- C5 amended: deserialization succeeds exactly when the header slice
(the bytes before the first NUL, or all but the last byte when no NUL is
present) is valid UTF-8 and contains exactly one space, so that it
unpacks into exactly two fields; the declared size is never compared to
the payload length, and decompression failure is the only other failure
source (it lives in the elided zlib layer). -/
theorem deserialize_success_iff (d : List Nat) :
    (∃ r, deserializeCore d = some r) ↔
      (utf8Valid (headerOf d) = true ∧ countByte 32 (headerOf d) = 1) := by
  have hlen := splitOnByte_length 32 (headerOf d)
  by_cases hv : utf8Valid (headerOf d) = true
  · rcases hs : splitOnByte 32 (headerOf d) with _ | ⟨a, t⟩
    · rw [hs] at hlen; simp at hlen
    · rcases t with _ | ⟨b2, t2⟩
      · rw [hs] at hlen
        simp at hlen
        simp [deserializeCore, hv, hs]
        omega
      · rcases t2 with _ | ⟨c, t3⟩
        · rw [hs] at hlen
          simp at hlen
          simp [deserializeCore, hv, hs]
          omega
        · rw [hs] at hlen
          simp at hlen
          simp [deserializeCore, hv, hs]
          omega
  · have hv2 : utf8Valid (headerOf d) = false := by
      cases h2 : utf8Valid (headerOf d) <;> simp_all
    simp [deserializeCore, hv2]

/-! ## Commit objects and the commit engine (Repository.commit) -/

/-- A commit object: tree id (none models a missing tree header), ordered
parent ids (the head of the list is the first parent), author, committer,
message and timestamp, as built by the Commit constructor and parsed back
by Commit.from_content. -/
structure CommitObj where
  tree : Option String
  parents : List String
  author : String
  committer : String
  message : String
  timestamp : Nat
deriving DecidableEq

/-- The commit objects of the store, keyed by id (the objects directory
restricted to commits). -/
abbrev CommitStore := List (String × CommitObj)

/-- Tree objects are modelled by their flattened path-to-blob mapping
(see the file header); the tree store maps a tree id to that mapping. -/
abbrev TreeStore := List (String × List (String × String))

/-- Blob store: blob id to content bytes. -/
abbrev BlobStore := List (String × List Nat)

/-- Repository state as the commit engine sees it: the commit store, the
resolved HEAD commit (get_head_commit, through one branch indirection),
the MERGE_HEAD and MERGE_MSG singletons, and the staging index. -/
structure RepoState where
  store : CommitStore
  headCommit : Option String
  mergeHead : Option String
  mergeMsg : Option String
  index : List (String × String)
deriving DecidableEq

/-- Parent determination of commit: [HEAD, MERGE_HEAD] when a merge is in
progress (or [MERGE_HEAD] alone when HEAD is null), else [HEAD] when it
exists, else []. -/
def parentsOf (st : RepoState) : List String :=
  match st.mergeHead, st.headCommit with
  | some m, some h => [h, m]
  | some m, none => [m]
  | none, some h => [h]
  | none, none => []

/-- Message substitution of commit: an empty message is replaced by
MERGE_MSG when a merge is in progress and MERGE_MSG exists. -/
def commitMessage (st : RepoState) (message : String) : String :=
  match st.mergeHead with
  | some _ => if message = "" then st.mergeMsg.getD message else message
  | none => message

/-- Outcome of commit: the two print-and-return-None paths of the source
("nothing to commit, working tree clean") are nothingToCommit; a missing
parent object raises FileNotFoundError in load_object, modelled as
objectNotFound; otherwise the new commit object and the updated state. -/
inductive CommitResult
  | nothingToCommit
  | objectNotFound
  | created (c : CommitObj) (st : RepoState)
deriving DecidableEq

/-- Successful tail of commit: build the commit object, store it, advance
HEAD (moving the branch ref when attached, writing the id into HEAD when
detached; either way the resolved HEAD becomes the new id), delete
MERGE_HEAD and MERGE_MSG, and clear the index. -/
def commitCreate (cid : CommitObj → String) (st : RepoState) (th : String)
    (parents : List String) (msg author : String) (now : Nat) :
    CommitResult :=
  CommitResult.created ⟨some th, parents, author, author, msg, now⟩
    { store := (cid ⟨some th, parents, author, author, msg, now⟩,
                ⟨some th, parents, author, author, msg, now⟩) :: st.store,
      headCommit := some (cid ⟨some th, parents, author, author, msg, now⟩),
      mergeHead := none, mergeMsg := none, index := [] }

/-- commit of the source.  The tree builder create_tree_from_index and the
object id are deterministic functions of their input and are passed as the
parameters treeOf and cid.  Note the two separate refusal guards: an empty
index refuses outright, and the tree-equality guard fires only when the
parent list has exactly one entry. -/
def commit (treeOf : List (String × String) → String)
    (cid : CommitObj → String) (st : RepoState) (message author : String)
    (now : Nat) : CommitResult :=
  if st.index = [] then CommitResult.nothingToCommit
  else
    match parentsOf st with
    | [p] =>
        match alookup p st.store with
        | none => CommitResult.objectNotFound
        | some pc =>
            if some (treeOf st.index) = pc.tree then
              CommitResult.nothingToCommit
            else
              commitCreate cid st (treeOf st.index) (parentsOf st)
                (commitMessage st message) author now
    | _ =>
        commitCreate cid st (treeOf st.index) (parentsOf st)
          (commitMessage st message) author now

/-- C2 counterexample: with MERGE_HEAD present (so that commit determines
two parents) and an empty index, commit refuses with the
nothing-to-commit outcome even though the parent list does not have
exactly one entry, and no merge commit is created. -/
theorem commit_merge_empty_index_refused :
    commit (fun _ => "T") (fun _ => "C")
        ⟨[], some "hh", some "mm", none, []⟩ "" "a" 0 =
      CommitResult.nothingToCommit ∧
    parentsOf ⟨[], some "hh", some "mm", none, []⟩ = ["hh", "mm"] :=
  ⟨rfl, rfl⟩

/-- C2 amended: commit fails with the nothing-to-commit outcome exactly
when the staging index is empty, or when the parent list has exactly one
entry whose stored commit has a tree equal to the tree built from the
index.  In particular, with MERGE_HEAD supplying two parents and a
non-empty index a merge commit is created even when it records no tree
change; but with an empty index even a merge commit is refused. -/
theorem commit_nothing_iff (treeOf : List (String × String) → String)
    (cid : CommitObj → String) (st : RepoState) (message author : String)
    (now : Nat) :
    commit treeOf cid st message author now = CommitResult.nothingToCommit ↔
      (st.index = [] ∨
        ∃ p pc, parentsOf st = [p] ∧ alookup p st.store = some pc ∧
          pc.tree = some (treeOf st.index)) := by
  by_cases hidx : st.index = []
  · simp [commit, hidx]
  · rcases hps : parentsOf st with _ | ⟨p, _ | ⟨q, rest⟩⟩
    · simp [commit, hidx, hps, commitCreate]
    · rcases hl : alookup p st.store with _ | pc
      · simp [commit, hidx, hps, hl]
      · by_cases ht : some (treeOf st.index) = pc.tree
        · simp [commit, hidx, hps, hl, ht]
        · simp [commit, hidx, hps, hl, ht, commitCreate]
          intro h5
          exact ht h5.symm
    · simp [commit, hidx, hps, commitCreate]

/-! ## History graph: Repository.is_ancestor -/

/-- First-parent walk of is_ancestor, fueled.  Mirrors the while loop of
the source: an empty current id or a revisit ends the walk, meeting the
ancestor returns true, a failed object load breaks, and otherwise the
walk steps to the first parent with the current id added to the visited
set.  Each iteration either stops or adds a distinct store key to the
visited set, so fuel of the store size plus two never runs out. -/
def isAncestorAux (s : CommitStore) (anc : String) :
    Nat → List String → Option String → Bool
  | _, _, none => false
  | 0, _, some _ => false
  | fuel + 1, visited, some cur =>
      if cur = "" then false
      else if cur ∈ visited then false
      else if cur = anc then true
      else
        match alookup cur s with
        | none => false
        | some c => isAncestorAux s anc fuel (cur :: visited) c.parents.head?

/-- is_ancestor of the source: is the first id an ancestor of the second
along the first-parent chain. -/
def is_ancestor (s : CommitStore) (a b : String) : Bool :=
  isAncestorAux s a (s.length + 2) [] (some b)

theorem isAncestorAux_rank (s : CommitStore) (rank : String → Nat)
    (hrank : ∀ h c, alookup h s = some c →
        ∀ p, c.parents.head? = some p → rank p < rank h) (anc : String) :
    ∀ fuel visited cur, isAncestorAux s anc fuel visited (some cur) = true →
      anc = cur ∨ rank anc < rank cur := by
  intro fuel
  induction fuel with
  | zero => intro visited cur h; simp [isAncestorAux] at h
  | succ fuel ih =>
      intro visited cur h
      by_cases h1 : cur = ""
      · simp [isAncestorAux, h1] at h
      · by_cases h2 : cur ∈ visited
        · simp [isAncestorAux, h1, h2] at h
        · by_cases h3 : cur = anc
          · exact Or.inl h3.symm
          · rcases hl : alookup cur s with _ | c
            · simp [isAncestorAux, h1, h2, h3, hl] at h
            · rcases hp : c.parents.head? with _ | p
              · simp [isAncestorAux, h1, h2, h3, hl, hp] at h
              · have h4 : isAncestorAux s anc fuel (cur :: visited)
                    (some p) = true := by
                  simpa [isAncestorAux, h1, h2, h3, hl, hp] using h
                have hstep := hrank cur c hl p hp
                rcases ih (cur :: visited) p h4 with he | hlt
                · right; rw [he]; exact hstep
                · right; omega

/-- C6: over a well-formed history — commit ids are nonempty strings, and
the first-parent relation decreases some rank function, as holds for any
store the engine itself builds, where every parent id exists before the
child commit is stored — is_ancestor is reflexive, and it is
antisymmetric: mutual first-parent ancestry forces equality. -/
theorem is_ancestor_refl_antisymm (s : CommitStore) (rank : String → Nat)
    (hrank : ∀ h c, alookup h s = some c →
        ∀ p, c.parents.head? = some p → rank p < rank h) :
    (∀ a, a ≠ "" → is_ancestor s a a = true) ∧
    (∀ a b, is_ancestor s a b = true → is_ancestor s b a = true → a = b) := by
  constructor
  · intro a ha
    show isAncestorAux s a (s.length + 2) [] (some a) = true
    simp [isAncestorAux, ha]
  · intro a b hab hba
    by_contra hne
    rcases isAncestorAux_rank s rank hrank a (s.length + 2) [] b hab
      with he | hab2
    · exact hne he
    rcases isAncestorAux_rank s rank hrank b (s.length + 2) [] a hba
      with he | hba2
    · exact hne he.symm
    omega

/-- Witness for the C6 theorem on a one-commit store with the constant
rank function. -/
theorem is_ancestor_refl_antisymm_witness :
    is_ancestor [("aa", ⟨some "t0", [], "a", "a", "m", 0⟩)] "aa" "aa" =
      true := by
  have hr : ∀ h c,
      alookup h [("aa", (⟨some "t0", [], "a", "a", "m", 0⟩ : CommitObj))] =
        some c → ∀ p, c.parents.head? = some p → (fun _ => 0) p <
          (fun _ => 0) h := by
    intro h c hl p hp
    by_cases h1 : "aa" = h
    · simp [alookup, h1] at hl
      rw [← hl] at hp
      simp at hp
    · simp [alookup, h1] at hl
  exact (is_ancestor_refl_antisymm
    [("aa", ⟨some "t0", [], "a", "a", "m", 0⟩)] (fun _ => 0) hr).1 "aa"
    (by decide)

/-! ## Merge engine: Repository.three_way_merge and conflict
materialization (Repository.restore_merged_files) -/

/-- Per-path decision of three_way_merge, following the if/elif chain of
the source on the three optional blob ids of a path (base, current,
branch); returns the merged value (none means the path is absent from
the merged index) and whether the path is recorded as a conflict.  For
a both-modified conflict the merged value keeps the CURRENT side's id
("keep current for now" in the source). -/
def mergeFile (basj curj brj : Option String) : Option String × Bool :=
  if curj = brj then (curj, false)
  else if curj = basj ∧ brj ≠ basj then (brj, false)
  else if brj = basj ∧ curj ≠ basj then (curj, false)
  else
    match curj, brj with
    | some c, some _ => (some c, true)
    | some c, none => (some c, true)
    | none, some b2 => (some b2, true)
    | none, none => (none, false)

/-- The union of the three key sets as iterated by three_way_merge. -/
def mergeAllFiles (base current branch : List (String × String)) :
    List String :=
  (keysOf base ++ keysOf current ++ keysOf branch).dedup

/-- three_way_merge of the source: classify every path of the union of
the three per-commit indices, returning the merged index and the
conflict set. -/
def three_way_merge (base current branch : List (String × String)) :
    List (String × String) × List String :=
  ((mergeAllFiles base current branch).filterMap (fun f =>
      ((mergeFile (alookup f base) (alookup f current)
          (alookup f branch)).1).map (fun v => (f, v))),
   (mergeAllFiles base current branch).filter (fun f =>
      (mergeFile (alookup f base) (alookup f current)
          (alookup f branch)).2))

theorem alookup_filterMap_graph {α : Type} (g : String → Option α) :
    ∀ (ls : List String) (p : String),
      alookup p (ls.filterMap (fun f => (g f).map (fun v => (f, v)))) =
        if p ∈ ls then g p else none := by
  intro ls
  induction ls with
  | nil => intro p; simp [alookup]
  | cons x ls ih =>
      intro p
      rcases hgx : g x with _ | v
      · by_cases hp : p = x
        · subst hp
          by_cases hpl : p ∈ ls <;>
            simp [List.filterMap_cons, hgx, ih, hpl]
        · simp [List.filterMap_cons, hgx, ih, hp]
      · by_cases hp : x = p
        · subst hp
          simp [List.filterMap_cons, hgx, alookup]
        · have hp2 : ¬ p = x := fun hh => hp hh.symm
          simp [List.filterMap_cons, hgx, alookup, hp, ih, hp2]

theorem mergeFile_sound (basj curj brj : Option String) (v : String)
    (h : (mergeFile basj curj brj).1 = some v) :
    curj = some v ∨ brj = some v := by
  unfold mergeFile at h
  split_ifs at h with h1 h2 h3
  · exact Or.inl h
  · exact Or.inr h
  · exact Or.inl h
  · cases curj <;> cases brj <;> simp_all

theorem mergeFile_none_none (basj : Option String) :
    mergeFile basj none none = (none, false) := by
  simp [mergeFile]

/-- C8: three_way_merge never invents content: every blob id recorded in
the merged index for a path is the current side's id or the branch
side's id for that path, and a path absent from both the current and
the branch index never appears in the merged index (a path deleted on
both sides stays deleted). -/
theorem three_way_merge_no_invention
    (base current branch : List (String × String)) (p : String) :
    (∀ v, alookup p (three_way_merge base current branch).1 = some v →
      alookup p current = some v ∨ alookup p branch = some v) ∧
    (alookup p current = none → alookup p branch = none →
      alookup p (three_way_merge base current branch).1 = none) := by
  have hlu := alookup_filterMap_graph
    (fun f => (mergeFile (alookup f base) (alookup f current)
        (alookup f branch)).1) (mergeAllFiles base current branch) p
  constructor
  · intro v hv
    simp only [three_way_merge] at hv
    rw [hlu] at hv
    by_cases hp : p ∈ mergeAllFiles base current branch
    · rw [if_pos hp] at hv
      exact mergeFile_sound _ _ _ v hv
    · rw [if_neg hp] at hv
      cases hv
  · intro hc hb
    simp only [three_way_merge]
    rw [hlu]
    by_cases hp : p ∈ mergeAllFiles base current branch
    · rw [if_pos hp, hc, hb, mergeFile_none_none]
    · rw [if_neg hp]

/-- Witness for the C8 theorem: a path present only in the current index
is merged with the current id, and a path deleted on both sides is
absent from the merged index. -/
theorem three_way_merge_no_invention_witness :
    (alookup "a" [("a", "h1")] = some "h1" ∨
      alookup "a" ([] : List (String × String)) = some "h1") ∧
    alookup "zz" (three_way_merge [("zz", "h0")] [("a", "h1")]
        ([] : List (String × String))).1 = none :=
  ⟨(three_way_merge_no_invention [] [("a", "h1")] [] "a").1 "h1" (by decide),
   (three_way_merge_no_invention [("zz", "h0")] [("a", "h1")] [] "zz").2
     (by decide) (by decide)⟩

/-- Bytes of a string of ASCII characters, for the marker lines. -/
def strBytes (s : String) : List Nat := s.toList.map Char.toNat

/-- The conflict-file bytes written by restore_merged_files: the first
argument fills the section under the <<<<<<< HEAD marker, the second
the section under >>>>>>> MERGE_HEAD. -/
def conflictMarked (first second : List Nat) : List Nat :=
  strBytes "<<<<<<< HEAD\n" ++ first ++ strBytes "\n=======\n" ++
    second ++ strBytes "\n>>>>>>> MERGE_HEAD\n"

/-- restore_merged_files of the source, over the workspace modelled as an
association list from path to file bytes.  For each path of the merged
index: a conflicted path is rewritten as a marker file whose HEAD section
receives the bytes currently on disk (empty when the file is absent) and
whose MERGE_HEAD section receives the blob the MERGED INDEX records for
the path; a failed blob load on a conflicted path is swallowed
(try/except pass), while on a non-conflicted path load_object raises,
modelled as none. -/
def restore_merged_files (blobs : BlobStore)
    (idx : List (String × String)) (conflicts : List String)
    (ws : List (String × List Nat)) : Option (List (String × List Nat)) :=
  match idx with
  | [] => some ws
  | (p, bh) :: rest =>
      if p ∈ conflicts then
        match alookup bh blobs with
        | none => restore_merged_files blobs rest conflicts ws
        | some br =>
            restore_merged_files blobs rest conflicts
              (aset p (conflictMarked ((alookup p ws).getD []) br) ws)
      else
        match alookup bh blobs with
        | none => none
        | some content =>
            restore_merged_files blobs rest conflicts (aset p content ws)

/-- C1: evaluation at the failing input.  Both sides modified path "a":
base blob h0, current blob h1 with bytes [65], branch blob h2 with bytes
[66]; the working file holds the current bytes.  three_way_merge records
the current side's id h1 in the merged index for the conflicted path,
so restore_merged_files writes the current bytes under BOTH markers: the
materialized file is conflictMarked [65] [65], which differs from the
interleaving of the two sides' blobs conflictMarked [65] [66], and the
branch side's byte 66 occurs nowhere in the written file. -/
theorem merge_conflict_marker_uses_current_blob :
    three_way_merge [("a", "h0")] [("a", "h1")] [("a", "h2")] =
        ([("a", "h1")], ["a"]) ∧
    restore_merged_files [("h1", [65]), ("h2", [66])] [("a", "h1")] ["a"]
        [("a", [65])] = some [("a", conflictMarked [65] [65])] ∧
    conflictMarked [65] [65] ≠ conflictMarked [65] [66] ∧
    ¬ (66 ∈ conflictMarked [65] [65]) := by
  refine ⟨?_, ?_, ?_, ?_⟩ <;> decide

/-! ## Checkout target classification (Repository.checkout) -/

/-- The hex-digit test of checkout: membership of the character in the
lowercase hex digit string, exactly as the source writes it. -/
def isHexLower (c : Char) : Bool := "0123456789abcdef".toList.contains c

/-- The action checkout dispatches to. -/
inductive CheckoutAction
  | detachedAt (commitHash : String)
  | switchedTo (branch : String)
  | createdAndSwitched (branch : String)
  | branchNotFound (branch : String)
deriving DecidableEq

/-- checkout_branch of the source, reduced to its dispatch decision:
switch when the branch ref exists, create it at HEAD when asked,
otherwise report an unknown branch. -/
def checkout_branch (branches : List String) (target : String)
    (create : Bool) : CheckoutAction :=
  if target ∈ branches then CheckoutAction.switchedTo target
  else if create then CheckoutAction.createdAndSwitched target
  else CheckoutAction.branchNotFound target

/-- checkout of the source: the target is first tested as a commit id —
at least seven characters, all of them lowercase hex digits, and
load_object succeeding (the full target names an object present in the
store) — and only otherwise treated as a branch name. -/
def checkout (objects : List String) (branches : List String)
    (target : String) (create : Bool) : CheckoutAction :=
  if 7 ≤ target.length ∧ target.toList.all isHexLower ∧ target ∈ objects
  then CheckoutAction.detachedAt target
  else checkout_branch branches target create

/-- C9: a hex-shaped target of length at least seven that names a stored
object always enters detached HEAD, for every branch list and create
flag — in particular even when a branch with exactly that name exists,
so such a branch can never be checked out by name. -/
theorem checkout_hex_target_detaches (objects : List String)
    (target : String) (h1 : 7 ≤ target.length)
    (h2 : target.toList.all isHexLower = true) (h3 : target ∈ objects) :
    ∀ branches create,
      checkout objects branches target create =
        CheckoutAction.detachedAt target := by
  intro branches create
  unfold checkout
  rw [if_pos ⟨h1, h2, h3⟩]

/-- Witness for the C9 theorem: the branch list contains the target name
itself, yet checkout detaches. -/
theorem checkout_hex_target_detaches_witness :
    checkout ["deadbee"] ["deadbee"] "deadbee" false =
      CheckoutAction.detachedAt "deadbee" :=
  checkout_hex_target_detaches ["deadbee"] "deadbee" (by decide) (by decide)
    (by decide) ["deadbee"] false

/-! ## Cherry-pick (Repository.cherry_pick) -/

/-- get_commit_file_index of the source: the flattened index of a
commit's tree; empty when the commit is missing, has no tree header, or
the tree cannot be read (the exceptions are swallowed). -/
def get_commit_file_index (cs : CommitStore) (ts : TreeStore)
    (h : String) : List (String × String) :=
  match alookup h cs with
  | none => []
  | some c =>
      match c.tree with
      | none => []
      | some th => (alookup th ts).getD []

/-- The current snapshot cherry_pick diffs against: the HEAD commit's
file index, or empty with no HEAD. -/
def cherryCurrentIdx (cs : CommitStore) (ts : TreeStore)
    (headCommit : Option String) : List (String × String) :=
  match headCommit with
  | some hcm => get_commit_file_index cs ts hcm
  | none => []

/-- The changed paths of a cherry-picked commit: paths whose blob entry
differs between the commit and its first parent. -/
def cherryChanged (parentIdx commitIdx : List (String × String)) :
    List String :=
  ((keysOf parentIdx ++ keysOf commitIdx).dedup).filter
    (fun f => decide (alookup f parentIdx ≠ alookup f commitIdx))

/-- The conflict test of cherry_pick: a changed path conflicts when it is
present in the current snapshot with a blob id different from the
parent's entry for that path; a path absent from the current snapshot
never conflicts. -/
def cherryConflicts (parentIdx commitIdx currentIdx :
    List (String × String)) : List String :=
  (cherryChanged parentIdx commitIdx).filter (fun f =>
    match alookup f currentIdx with
    | some v => decide (alookup f parentIdx ≠ some v)
    | none => false)

/-- Application of the changes to the staging index: a changed path takes
the commit's blob id, or is removed when the commit deleted it. -/
def applyChanges (commitIdx : List (String × String))
    (changed : List String) (idx : List (String × String)) :
    List (String × String) :=
  changed.foldl (fun acc f =>
    match alookup f commitIdx with
    | some b => aset f b acc
    | none => removeKey f acc) idx

/-- Write every blob of an index into the workspace; none models an
uncaught load_object failure. -/
def writeAll (blobs : BlobStore) :
    List (String × String) → List (String × List Nat) →
      Option (List (String × List Nat))
  | [], ws => some ws
  | (p, bh) :: rest, ws =>
      match alookup bh blobs with
      | none => none
      | some content => writeAll blobs rest (aset p content ws)

/-- Outcome of cherry_pick. -/
inductive CherryResult
  | commitNotFound
  | initialCommit
  | conflictsFound (files : List String)
  | applied (newIndex : List (String × String))
      (ws : List (String × List Nat))
deriving DecidableEq

/-- cherry_pick of the source over the workspace state: load the commit,
refuse an initial commit, diff it against its first parent, test each
changed path for conflict against the current HEAD snapshot (not the
staging index), and either report the conflicts with no state change or
apply the changes to the staging index and materialize every file of the
resulting index (a failed blob write raises, modelled as none). -/
def cherry_pick (cs : CommitStore) (ts : TreeStore) (blobs : BlobStore)
    (headCommit : Option String) (stagedIdx : List (String × String))
    (ws : List (String × List Nat)) (ch : String) :
    Option CherryResult :=
  match alookup ch cs with
  | none => some CherryResult.commitNotFound
  | some c =>
      match c.parents with
      | [] => some CherryResult.initialCommit
      | ph :: _ =>
          if cherryConflicts (get_commit_file_index cs ts ph)
              (get_commit_file_index cs ts ch)
              (cherryCurrentIdx cs ts headCommit) = [] then
            match writeAll blobs
                (applyChanges (get_commit_file_index cs ts ch)
                  (cherryChanged (get_commit_file_index cs ts ph)
                    (get_commit_file_index cs ts ch)) stagedIdx) ws with
            | none => none
            | some ws2 =>
                some (CherryResult.applied
                  (applyChanges (get_commit_file_index cs ts ch)
                    (cherryChanged (get_commit_file_index cs ts ph)
                      (get_commit_file_index cs ts ch)) stagedIdx) ws2)
          else
            some (CherryResult.conflictsFound
              (cherryConflicts (get_commit_file_index cs ts ph)
                (get_commit_file_index cs ts ch)
                (cherryCurrentIdx cs ts headCommit)))

/-- C4 counterexample: commit c changes path "f" (parent blob h1, commit
blob h2); the current HEAD snapshot does NOT contain "f" although the
parent does, so the current snapshot differs from the parent on that
path — yet cherry_pick raises no conflict and applies the new blob to
the index and the workspace. -/
theorem cherry_pick_absent_path_not_conflict :
    cherry_pick
        [("c", ⟨some "tc", ["p"], "a", "a", "m", 0⟩),
         ("p", ⟨some "tp", [], "a", "a", "m", 0⟩),
         ("h", ⟨some "th", [], "a", "a", "m", 0⟩)]
        [("tc", [("f", "h2")]), ("tp", [("f", "h1")]), ("th", [])]
        [("h2", [50])] (some "h") [] [] "c" =
      some (CherryResult.applied [("f", "h2")] [("f", [50])]) ∧
    alookup "f" (get_commit_file_index
        [("c", ⟨some "tc", ["p"], "a", "a", "m", 0⟩),
         ("p", ⟨some "tp", [], "a", "a", "m", 0⟩),
         ("h", ⟨some "th", [], "a", "a", "m", 0⟩)]
        [("tc", [("f", "h2")]), ("tp", [("f", "h1")]), ("th", [])] "p") =
      some "h1" ∧
    alookup "f" (cherryCurrentIdx
        [("c", ⟨some "tc", ["p"], "a", "a", "m", 0⟩),
         ("p", ⟨some "tp", [], "a", "a", "m", 0⟩),
         ("h", ⟨some "th", [], "a", "a", "m", 0⟩)]
        [("tc", [("f", "h2")]), ("tp", [("f", "h1")]), ("th", [])]
        (some "h")) = none := by
  refine ⟨?_, ?_, ?_⟩ <;> decide

theorem alookup_removeKey_self {α : Type} (k : String)
    (l : List (String × α)) : alookup k (removeKey k l) = none := by
  induction l with
  | nil => rfl
  | cons kv rest ih =>
      obtain ⟨k2, v2⟩ := kv
      by_cases h2 : k2 = k <;> simp [removeKey, alookup, h2, ih]

theorem cherryChanged_mem (parentIdx commitIdx : List (String × String))
    (f : String) :
    f ∈ cherryChanged parentIdx commitIdx ↔
      alookup f parentIdx ≠ alookup f commitIdx := by
  simp only [cherryChanged, List.mem_filter, List.mem_dedup,
    List.mem_append, decide_eq_true_eq]
  constructor
  · rintro ⟨_, hne⟩; exact hne
  · intro hne
    refine ⟨?_, hne⟩
    rcases hp : alookup f parentIdx with _ | v
    · rw [hp] at hne
      exact Or.inr (mem_keysOf_of_alookup (fun hh => hne (by rw [hh])))
    · exact Or.inl (mem_keysOf_of_alookup (by rw [hp]; simp))

theorem cherryConflicts_mem
    (parentIdx commitIdx currentIdx : List (String × String))
    (f : String) :
    f ∈ cherryConflicts parentIdx commitIdx currentIdx ↔
      (alookup f parentIdx ≠ alookup f commitIdx ∧
        ∃ v, alookup f currentIdx = some v ∧
          alookup f parentIdx ≠ some v) := by
  simp only [cherryConflicts, List.mem_filter, cherryChanged_mem]
  rcases hc : alookup f currentIdx with _ | v
  · simp
  · simp [decide_eq_true_eq]

theorem alookup_applyChanges (commitIdx : List (String × String)) :
    ∀ (changed : List String) (idx : List (String × String)) (f : String),
      alookup f (applyChanges commitIdx changed idx) =
        if f ∈ changed then alookup f commitIdx else alookup f idx := by
  intro changed
  induction changed with
  | nil => intro idx f; simp [applyChanges]
  | cons a l ih =>
      intro idx f
      have hstep : applyChanges commitIdx (a :: l) idx =
          applyChanges commitIdx l
            (match alookup a commitIdx with
             | some b => aset a b idx
             | none => removeKey a idx) := rfl
      rw [hstep, ih]
      by_cases hfl : f ∈ l
      · simp [hfl, List.mem_cons]
      · by_cases hfa : f = a
        · subst hfa
          simp [hfl]
          rcases hac : alookup f commitIdx with _ | b
          · simp [alookup_removeKey_self]
          · simp [alookup_aset_self]
        · have hmem : ¬ f ∈ a :: l := by
            simp [List.mem_cons, hfa, hfl]
          simp only [if_neg hmem, if_neg hfl]
          rcases hac : alookup a commitIdx with _ | b
          · exact alookup_removeKey_ne a f hfa idx
          · exact alookup_aset_ne a f b hfa idx

/-- C4 amended: for a cherry-pick of a commit with at least one parent,
a changed path (blob differing between the commit and its first parent)
is marked as a conflict exactly when the path is PRESENT in the current
snapshot with a blob different from the parent's entry — a path absent
from the current snapshot never conflicts, even when it is present in
the parent.  When conflicts exist cherry_pick reports exactly that set;
the applied index maps every changed path to the commit's entry
(removing deleted paths) and leaves every other path of the staging
index untouched. -/
theorem cherry_pick_conflict_characterization
    (cs : CommitStore) (ts : TreeStore) (blobs : BlobStore)
    (headCommit : Option String) (stagedIdx : List (String × String))
    (ws : List (String × List Nat)) (ch ph : String) (rest : List String)
    (c : CommitObj) (h1 : alookup ch cs = some c)
    (h2 : c.parents = ph :: rest) :
    (∀ f, f ∈ cherryConflicts (get_commit_file_index cs ts ph)
          (get_commit_file_index cs ts ch)
          (cherryCurrentIdx cs ts headCommit) ↔
        (alookup f (get_commit_file_index cs ts ph) ≠
            alookup f (get_commit_file_index cs ts ch) ∧
          ∃ v, alookup f (cherryCurrentIdx cs ts headCommit) = some v ∧
            alookup f (get_commit_file_index cs ts ph) ≠ some v)) ∧
    (cherryConflicts (get_commit_file_index cs ts ph)
        (get_commit_file_index cs ts ch)
        (cherryCurrentIdx cs ts headCommit) ≠ [] →
      cherry_pick cs ts blobs headCommit stagedIdx ws ch =
        some (CherryResult.conflictsFound
          (cherryConflicts (get_commit_file_index cs ts ph)
            (get_commit_file_index cs ts ch)
            (cherryCurrentIdx cs ts headCommit)))) ∧
    (∀ f, alookup f (applyChanges (get_commit_file_index cs ts ch)
          (cherryChanged (get_commit_file_index cs ts ph)
            (get_commit_file_index cs ts ch)) stagedIdx) =
        if alookup f (get_commit_file_index cs ts ph) ≠
            alookup f (get_commit_file_index cs ts ch)
        then alookup f (get_commit_file_index cs ts ch)
        else alookup f stagedIdx) := by
  refine ⟨fun f => cherryConflicts_mem _ _ _ f, ?_, ?_⟩
  · intro hne
    simp [cherry_pick, h1, h2, hne]
  · intro f
    rw [alookup_applyChanges]
    by_cases hd : alookup f (get_commit_file_index cs ts ph) ≠
        alookup f (get_commit_file_index cs ts ch)
    · rw [if_pos ((cherryChanged_mem _ _ f).mpr hd), if_pos hd]
    · rw [if_neg (fun hm => hd ((cherryChanged_mem _ _ f).mp hm)),
        if_neg hd]

/-- Witness for the C4 amended theorem on a one-commit store (the tree
store is empty, so all file indices are empty and nothing changes). -/
theorem cherry_pick_conflict_characterization_witness :
    alookup "x" (applyChanges
        (get_commit_file_index
          [("c", ⟨some "tc", ["p"], "a", "a", "m", 0⟩)] [] "c")
        (cherryChanged
          (get_commit_file_index
            [("c", ⟨some "tc", ["p"], "a", "a", "m", 0⟩)] [] "p")
          (get_commit_file_index
            [("c", ⟨some "tc", ["p"], "a", "a", "m", 0⟩)] [] "c"))
        []) = none := by
  rw [(cherry_pick_conflict_characterization
    [("c", ⟨some "tc", ["p"], "a", "a", "m", 0⟩)] [] [] none [] [] "c" "p"
    [] ⟨some "tc", ["p"], "a", "a", "m", 0⟩ (by decide) rfl).2.2 "x"]
  decide

/-! ## Reset (Repository.reset) -/

/-- The workspace-level state reset manipulates: the resolved HEAD, the
staging index, and the working files (every file outside the metadata
directory, tracked or not, as enumerated by get_all_files). -/
structure WsState where
  headCommit : Option String
  index : List (String × String)
  ws : List (String × List Nat)
deriving DecidableEq

/-- The reset mode (the soft / mixed / hard command options; an unknown
mode string falls through every branch and does nothing, so only the
three real modes are modelled). -/
inductive ResetMode
  | soft
  | mixed
  | hard
deriving DecidableEq

/-- reset of the source.  Moving HEAD covers both the attached case (the
branch ref is moved) and the detached one (HEAD is rewritten): either
way the resolved HEAD becomes the target id.  soft only moves HEAD;
mixed also rebuilds the index from the target tree (empty when the tree
is missing or unreadable); hard moves HEAD, deletes EVERY file returned
by get_all_files — the whole working tree, untracked files included
(the computed target-tree file set is bound to an unused variable) —
and then restores the target tree and rebuilds the index from it.  A
missing target commit prints and leaves the state unchanged; a tree or
blob that restore_tree cannot load raises, modelled as none. -/
def reset (cs : CommitStore) (ts : TreeStore) (blobs : BlobStore)
    (st : WsState) (commitHash : String) (mode : ResetMode) :
    Option WsState :=
  match alookup commitHash cs with
  | none => some st
  | some c =>
      match mode with
      | ResetMode.soft => some { st with headCommit := some commitHash }
      | ResetMode.mixed =>
          some { headCommit := some commitHash,
                 index := match c.tree with
                          | some th => (alookup th ts).getD []
                          | none => [],
                 ws := st.ws }
      | ResetMode.hard =>
          match c.tree with
          | some th =>
              match alookup th ts with
              | none => none
              | some ti =>
                  match writeAll blobs ti [] with
                  | none => none
                  | some ws2 =>
                      some { headCommit := some commitHash, index := ti,
                             ws := ws2 }
          | none =>
              some { headCommit := some commitHash, index := [], ws := [] }

/-- C3 counterexample: the working tree holds a tracked file "a.txt"
(present in the previous HEAD commit c0's tree) and an untracked file
"untracked.txt" (absent from c0's tree); after reset to c1 with mode
hard, the untracked file has been deleted from the workspace, although
the claim says every untracked working file is unchanged. -/
theorem reset_hard_removes_untracked :
    reset
        [("c1", ⟨some "t1", [], "a", "a", "m", 0⟩),
         ("c0", ⟨some "t0", [], "a", "a", "m", 0⟩)]
        [("t1", [("a.txt", "b1")]), ("t0", [("a.txt", "b0")])]
        [("b1", [65])]
        ⟨some "c0", [], [("a.txt", [66]), ("untracked.txt", [85])]⟩
        "c1" ResetMode.hard =
      some ⟨some "c1", [("a.txt", "b1")], [("a.txt", [65])]⟩ ∧
    alookup "untracked.txt" [("a.txt", [66]), ("untracked.txt", [85])] =
      some [85] ∧
    alookup "untracked.txt" (get_commit_file_index
        [("c1", ⟨some "t1", [], "a", "a", "m", 0⟩),
         ("c0", ⟨some "t0", [], "a", "a", "m", 0⟩)]
        [("t1", [("a.txt", "b1")]), ("t0", [("a.txt", "b0")])] "c0") =
      none ∧
    alookup "untracked.txt" [("a.txt", ([65] : List Nat))] = none := by
  refine ⟨?_, ?_, ?_, ?_⟩ <;> decide

theorem alookup_writeAll_not_mem (blobs : BlobStore) :
    ∀ (l : List (String × String)) (ws ws2 : List (String × List Nat))
      (p : String), writeAll blobs l ws = some ws2 → ¬ p ∈ keysOf l →
        alookup p ws2 = alookup p ws := by
  intro l
  induction l with
  | nil =>
      intro ws ws2 p h hm
      simp [writeAll] at h
      rw [← h]
  | cons kv rest ih =>
      obtain ⟨q, bh⟩ := kv
      intro ws ws2 p h hm
      simp only [keysOf, List.map_cons, List.mem_cons] at hm
      push_neg at hm
      rcases hb : alookup bh blobs with _ | content
      · simp [writeAll, hb] at h
      · simp only [writeAll, hb] at h
        rw [ih _ _ p h (by simpa [keysOf] using hm.2),
          alookup_aset_ne q p content hm.1]

/-- C3 amended: reset with mode hard deletes every file of the working
tree — tracked or untracked alike — and then restores the target
commit's tree: on success the resulting workspace consists exactly of
the target tree's files, so any path outside the target tree (in
particular every previously untracked file) is absent afterwards.
Untracked files are preserved only by accident of also appearing in the
target tree. -/
theorem reset_hard_workspace_is_target_tree (cs : CommitStore)
    (ts : TreeStore) (blobs : BlobStore) (st : WsState)
    (commitHash th : String) (c : CommitObj)
    (ti : List (String × String)) (ws2 : List (String × List Nat))
    (h1 : alookup commitHash cs = some c) (h2 : c.tree = some th)
    (h3 : alookup th ts = some ti) (h4 : writeAll blobs ti [] = some ws2) :
    reset cs ts blobs st commitHash ResetMode.hard =
        some ⟨some commitHash, ti, ws2⟩ ∧
    ∀ p, ¬ p ∈ keysOf ti → alookup p ws2 = none := by
  constructor
  · simp [reset, h1, h2, h3, h4]
  · intro p hp
    rw [alookup_writeAll_not_mem blobs ti [] ws2 p h4 hp]
    rfl

/-- Witness for the C3 amended theorem: after a successful hard reset,
a working path outside the target tree is gone. -/
theorem reset_hard_workspace_is_target_tree_witness :
    reset [("cc", ⟨some "tt", [], "a", "a", "m", 0⟩)]
        [("tt", [("f.txt", "bb")])] [("bb", [1])]
        ⟨none, [], [("zz", [9])]⟩ "cc" ResetMode.hard =
      some ⟨some "cc", [("f.txt", "bb")], [("f.txt", [1])]⟩ ∧
    alookup "zz" [("f.txt", ([1] : List Nat))] = none := by
  have h := reset_hard_workspace_is_target_tree
    [("cc", ⟨some "tt", [], "a", "a", "m", 0⟩)]
    [("tt", [("f.txt", "bb")])] [("bb", [1])]
    ⟨none, [], [("zz", [9])]⟩ "cc" "tt" ⟨some "tt", [], "a", "a", "m", 0⟩
    [("f.txt", "bb")] [("f.txt", [1])] (by decide) rfl (by decide)
    (by decide)
  exact ⟨h.1, h.2 "zz" (by decide)⟩

/-! ## Index loading (Repository.load_index)

load_index reads the index file and runs json.loads on it, returning
the empty dict on a missing file and on ANY exception.  json.loads is
an external library collaborator; it is modelled below by a pushdown
parser of the JSON core grammar (objects, arrays, strings with the
basic escapes, integer numerals, true/false/null, strict trailing-input
check).  The float and backslash-u string forms of the full grammar are
outside the model. -/

/-- JSON values as produced by json.loads. -/
inductive Json
  | jnull
  | jbool (b : Bool)
  | jnum (n : Int)
  | jstr (s : String)
  | jarr (xs : List Json)
  | jobj (fields : List (String × Json))

/-- The whitespace characters skipped by the JSON grammar. -/
def jsonSkipWs : List Char → List Char
  | [] => []
  | c :: rest =>
      if c = ' ' ∨ c = '\t' ∨ c = '\n' ∨ c = '\r' then jsonSkipWs rest
      else c :: rest

/-- Body of a JSON string after the opening quote: plain characters, the
basic escapes, and no raw control characters. -/
def jsonStringBody : Nat → List Char → List Char →
    Option (String × List Char)
  | 0, _, _ => none
  | _ + 1, _, [] => none
  | fuel + 1, acc, c :: rest =>
      if c.toNat = 34 then some (String.mk acc.reverse, rest)
      else if c.toNat = 92 then
        match rest with
        | [] => none
        | e :: rest2 =>
            if e.toNat = 34 ∨ e.toNat = 92 ∨ e.toNat = 47 then
              jsonStringBody fuel (e :: acc) rest2
            else if e = 'b' then
              jsonStringBody fuel (Char.ofNat 8 :: acc) rest2
            else if e = 'f' then
              jsonStringBody fuel (Char.ofNat 12 :: acc) rest2
            else if e = 'n' then
              jsonStringBody fuel (Char.ofNat 10 :: acc) rest2
            else if e = 'r' then
              jsonStringBody fuel (Char.ofNat 13 :: acc) rest2
            else if e = 't' then
              jsonStringBody fuel (Char.ofNat 9 :: acc) rest2
            else none
      else if c.toNat < 32 then none
      else jsonStringBody fuel (c :: acc) rest

/-- Longest leading run of decimal digits. -/
def jsonTakeDigits : List Char → List Char × List Char
  | [] => ([], [])
  | c :: rest =>
      if c.isDigit then
        ((c :: (jsonTakeDigits rest).1), (jsonTakeDigits rest).2)
      else ([], c :: rest)

/-- Numeric value of a digit run. -/
def jsonDigitsVal (ds : List Char) : Int :=
  Int.ofNat (ds.foldl (fun a c => a * 10 + (c.toNat - 48)) 0)

/-- The JSON leading-zero rule: a digit run is a valid integer literal
when it is the single digit 0 or does not start with 0. -/
def jsonNumOk : List Char → Bool
  | [] => false
  | c :: rest => if c.toNat = 48 then rest.isEmpty else true

/-- After an integer literal, a fraction dot or an exponent letter would
start the float grammar, which is outside this model. -/
def jsonIntEnd : List Char → Bool
  | [] => true
  | c :: _ => ¬ (c.toNat = 46 ∨ c = 'e' ∨ c = 'E')

/-- A pending composite value on the parser stack: an array with the
items parsed so far, or an object with the fields parsed so far and the
key whose value is being read. -/
inductive JFrame
  | arr (acc : List Json)
  | obj (acc : List (String × Json)) (key : String)

/-- The parser mode: expecting a value, or holding a completed value to
be delivered to the innermost frame. -/
inductive JMode
  | value
  | done (v : Json)

/-- Pushdown step function of the JSON parser; the fuel decreases on
every step and each step consumes at least one input character, so fuel
beyond the input length never runs out. -/
def jsonRun : Nat → List JFrame → JMode → List Char →
    Option (Json × List Char)
  | 0, _, _, _ => none
  | fuel + 1, stack, JMode.done v, s =>
      match stack with
      | [] => some (v, s)
      | JFrame.arr acc :: stack2 =>
          match jsonSkipWs s with
          | c :: rest =>
              if c.toNat = 44 then
                jsonRun fuel (JFrame.arr (v :: acc) :: stack2)
                  JMode.value rest
              else if c.toNat = 93 then
                jsonRun fuel stack2
                  (JMode.done (Json.jarr (v :: acc).reverse)) rest
              else none
          | [] => none
      | JFrame.obj acc key :: stack2 =>
          match jsonSkipWs s with
          | c :: rest =>
              if c.toNat = 44 then
                match jsonSkipWs rest with
                | c2 :: rest2 =>
                    if c2.toNat = 34 then
                      match jsonStringBody (rest2.length + 1) [] rest2 with
                      | some (key2, r1) =>
                          match jsonSkipWs r1 with
                          | c3 :: r2 =>
                              if c3.toNat = 58 then
                                jsonRun fuel
                                  (JFrame.obj ((key, v) :: acc) key2 ::
                                    stack2) JMode.value r2
                              else none
                          | [] => none
                      | none => none
                    else none
                | [] => none
              else if c.toNat = 125 then
                jsonRun fuel stack2
                  (JMode.done (Json.jobj ((key, v) :: acc).reverse)) rest
              else none
          | [] => none
  | fuel + 1, stack, JMode.value, s =>
      match jsonSkipWs s with
      | [] => none
      | c :: rest =>
          if c.toNat = 34 then
            match jsonStringBody (rest.length + 1) [] rest with
            | some (str, r) =>
                jsonRun fuel stack (JMode.done (Json.jstr str)) r
            | none => none
          else if c.toNat = 91 then
            match jsonSkipWs rest with
            | c2 :: rest2 =>
                if c2.toNat = 93 then
                  jsonRun fuel stack (JMode.done (Json.jarr [])) rest2
                else
                  jsonRun fuel (JFrame.arr [] :: stack) JMode.value
                    (c2 :: rest2)
            | [] => none
          else if c.toNat = 123 then
            match jsonSkipWs rest with
            | c2 :: rest2 =>
                if c2.toNat = 125 then
                  jsonRun fuel stack (JMode.done (Json.jobj [])) rest2
                else if c2.toNat = 34 then
                  match jsonStringBody (rest2.length + 1) [] rest2 with
                  | some (key, r1) =>
                      match jsonSkipWs r1 with
                      | c3 :: r2 =>
                          if c3.toNat = 58 then
                            jsonRun fuel (JFrame.obj [] key :: stack)
                              JMode.value r2
                          else none
                      | [] => none
                  | none => none
                else none
            | [] => none
          else if c = 'n' then
            match rest with
            | 'u' :: 'l' :: 'l' :: r =>
                jsonRun fuel stack (JMode.done Json.jnull) r
            | _ => none
          else if c = 't' then
            match rest with
            | 'r' :: 'u' :: 'e' :: r =>
                jsonRun fuel stack (JMode.done (Json.jbool true)) r
            | _ => none
          else if c = 'f' then
            match rest with
            | 'a' :: 'l' :: 's' :: 'e' :: r =>
                jsonRun fuel stack (JMode.done (Json.jbool false)) r
            | _ => none
          else if c.toNat = 45 then
            match jsonTakeDigits rest with
            | ([], _) => none
            | (d :: ds, r) =>
                if jsonNumOk (d :: ds) && jsonIntEnd r then
                  jsonRun fuel stack
                    (JMode.done (Json.jnum (-(jsonDigitsVal (d :: ds))))) r
                else none
          else if c.isDigit then
            match jsonTakeDigits (c :: rest) with
            | ([], _) => none
            | (d :: ds, r) =>
                if jsonNumOk (d :: ds) && jsonIntEnd r then
                  jsonRun fuel stack
                    (JMode.done (Json.jnum (jsonDigitsVal (d :: ds)))) r
                else none
          else none

/-- json.loads modelled on the JSON core grammar: parse one value and
reject trailing non-whitespace input. -/
def jsonParse (s : String) : Option Json :=
  match jsonRun (4 * s.length + 8) [] JMode.value s.toList with
  | some (v, r) =>
      match jsonSkipWs r with
      | [] => some v
      | _ :: _ => none
  | none => none

/-- load_index of the source: the empty mapping when the index file is
absent, the empty mapping when its contents raise in json.loads (the
bare except), and otherwise the parsed value as-is — the source never
checks that the value is an object. -/
def load_index (file : Option String) : Json :=
  match file with
  | none => Json.jobj []
  | some s =>
      match jsonParse s with
      | some v => v
      | none => Json.jobj []

/-- C10: load_index is a total function of the index file contents and
never raises: whenever the file is absent or its contents fail to parse
as JSON, it returns the empty mapping (a corrupt index is silently
treated as empty rather than reported). -/
theorem load_index_total_fallback :
    load_index none = Json.jobj [] ∧
    ∀ s, jsonParse s = none → load_index (some s) = Json.jobj [] := by
  constructor
  · rfl
  · intro s hs
    simp [load_index, hs]

/-- Witness for the C10 theorem on a concrete corrupt index file. -/
theorem load_index_total_fallback_witness :
    load_index (some "not json") = Json.jobj [] :=
  load_index_total_fallback.2 "not json" rfl

/-- Witness for the C2 amended theorem: a fresh repository with an empty
index refuses to commit. -/
theorem commit_nothing_iff_witness :
    commit (fun _ => "T") (fun _ => "C") ⟨[], none, none, none, []⟩
      "m" "a" 0 = CommitResult.nothingToCommit :=
  (commit_nothing_iff (fun _ => "T") (fun _ => "C")
    ⟨[], none, none, none, []⟩ "m" "a" 0).mpr (Or.inl rfl)

/-- Witness for the C5 amended theorem: a header with one space and a
valid encoding deserializes. -/
theorem deserialize_success_iff_witness :
    ∃ r, deserializeCore [97, 32, 97] = some r :=
  (deserialize_success_iff [97, 32, 97]).mpr (by decide)
